import Mathlib

/-!
Verification of the terminal input-event decoder of the `pres` crate.

The development shallowly embeds the streaming event decoder:

* bytes are `Nat` (values `< 256` in practice);
* a fallible pull-based byte source (`R : Read` with its `bytes()` iterator
  yielding `io::Result<u8>`) is a `List Item`, where an `Item` is either a
  byte or an I/O error (errors are carried as a `Nat` error code standing in
  for `io::Error`);
* the sequence grammar decoder consumes a leading byte plus a prefix of the
  continuation source and reports how many items of the source it pulled.

`EventsAndRaw`, its `next`, the `parse_event` raw-capture wrapper, the
`Events` and `Keys` projections and `events_and_raw` are translated from
`src/event/events.rs` and `src/input/mod.rs`.  The grammar decoder
`event.parse_event` itself (module `event`, file not present in the tree) is
modelled from the specification.
-/

/-- One element of the fallible byte stream: either a byte (`Ok(u8)`) or an
I/O error carrying an error code (`Err(io::Error)`). -/
inductive Item where
  | ok (b : Nat) : Item
  | err (e : Nat) : Item
  deriving DecidableEq, Repr

/-- A mouse button, as in the event model of the spec. -/
inductive MouseButton where
  | Left
  | Right
  | Middle
  | WheelUp
  | WheelDown
  deriving DecidableEq, Repr

/-- A mouse event: press with a button, release, or hold (drag), at 1-based
cell coordinates (column, row). -/
inductive MouseEvent where
  | Press (button : MouseButton) (x y : Nat)
  | Release (x y : Nat)
  | Hold (x y : Nat)
  deriving DecidableEq, Repr

/-- A key, covering the variants listed by the spec: plain character,
Alt+character, Ctrl+character, function keys, arrows, and the named special
keys.  Characters are carried as Unicode code points (`Nat`). -/
inductive Key where
  | Backspace
  | Left
  | Right
  | Up
  | Down
  | Home
  | End
  | PageUp
  | PageDown
  | Delete
  | Insert
  | F (n : Nat)
  | Char (c : Nat)
  | Alt (c : Nat)
  | Ctrl (c : Nat)
  | Esc
  | Unrecognized
  deriving DecidableEq, Repr

/-- An event reported by the terminal (`Event` in `src/event/events.rs`):
a key press, a mouse event, or an unsupported byte sequence carrying the raw
bytes consumed. -/
inductive Event where
  | Key (k : Key) : Event
  | Mouse (m : MouseEvent) : Event
  | Unsupported (bs : List Nat) : Event
  deriving DecidableEq, Repr

/-- Failure of the grammar decoder: either a propagated I/O error from the
continuation source, or a parse failure (unrecognized sequence / malformed
encoding). -/
inductive DecErr where
  | io (e : Nat)
  | parse
  deriving DecidableEq, Repr

/-- A grammar decoder: given the leading byte and the continuation source,
produce an event or a failure, together with the number of items of the
source that were pulled. -/
abbrev Decoder := Nat → List Item → Except DecErr Event × Nat

/-- The bytes among a prefix of the fallible stream (error items carry no
byte). -/
def okBytes : List Item → List Nat
  | [] => []
  | Item.ok b :: rest => b :: okBytes rest
  | Item.err _ :: rest => okBytes rest

/-- Pull `n` raw items from the source; fail with a parse error on
exhaustion and propagate an I/O error item.  Returns the bytes pulled and
the number of items consumed. -/
def pullRaw : Nat → List Item → Except DecErr (List Nat) × Nat
  | 0, _ => (Except.ok [], 0)
  | _ + 1, [] => (Except.error DecErr.parse, 0)
  | _ + 1, Item.err e :: _ => (Except.error (DecErr.io e), 1)
  | n + 1, Item.ok b :: rest =>
    match pullRaw n rest with
    | (Except.ok bs, k) => (Except.ok (b :: bs), k + 1)
    | (Except.error e, k) => (Except.error e, k + 1)

/-- Number of UTF-8 continuation bytes demanded by a leading byte, `none`
for an invalid leading byte. -/
def utf8Len (c : Nat) : Option Nat :=
  if c < 0x80 then some 0
  else if 0xC0 ≤ c ∧ c ≤ 0xDF then some 1
  else if 0xE0 ≤ c ∧ c ≤ 0xEF then some 2
  else if 0xF0 ≤ c ∧ c ≤ 0xF7 then some 3
  else none

/-- Is `b` a UTF-8 continuation byte? -/
def isCont (b : Nat) : Bool := decide (0x80 ≤ b ∧ b ≤ 0xBF)

/-- The payload bits of a UTF-8 leading byte demanding `n` continuations. -/
def utf8Init (c n : Nat) : Nat :=
  match n with
  | 1 => c - 0xC0
  | 2 => c - 0xE0
  | 3 => c - 0xF0
  | _ => c

/-- Modelled from the spec: UTF-8 character decoding inside the grammar
decoder (`parse_utf8_char` of the absent `event` module).  "Any byte forming
a valid multi-byte UTF-8 encoding decodes to `Key(Char(codepoint))`;
decoding must pull exactly as many continuation bytes as the encoding
requires"; a malformed encoding is a decode failure. -/
def parse_utf8_char (c : Nat) (l : List Item) : Except DecErr Nat × Nat :=
  match utf8Len c with
  | none => (Except.error DecErr.parse, 0)
  | some 0 => (Except.ok c, 0)
  | some n =>
    match pullRaw n l with
    | (Except.error e, k) => (Except.error e, k)
    | (Except.ok bs, k) =>
      if bs.all (fun b => isCont b) then
        (Except.ok (bs.foldl (fun acc b => acc * 64 + (b - 0x80)) (utf8Init c n)), k)
      else (Except.error DecErr.parse, k)

/-- Is `b` an ASCII digit? -/
def isDigit (b : Nat) : Bool := decide (48 ≤ b ∧ b ≤ 57)

/-- Is `b` a CSI parameter byte (digit or semicolon)? -/
def isParamByte (b : Nat) : Bool := isDigit b || b == 59

/-- Collect CSI parameter bytes (digits, `;`) until a final byte; returns
the parameter bytes, the final byte, and the items consumed. -/
def scanParams : List Item → Except DecErr (List Nat × Nat) × Nat
  | [] => (Except.error DecErr.parse, 0)
  | Item.err e :: _ => (Except.error (DecErr.io e), 1)
  | Item.ok b :: rest =>
    if isParamByte b then
      match scanParams rest with
      | (Except.ok (ps, f), k) => (Except.ok (b :: ps, f), k + 1)
      | (Except.error e, k) => (Except.error e, k + 1)
    else (Except.ok ([], b), 1)

/-- Collect bytes of an SGR mouse sequence until the final `m`/`M`. -/
def scanSGR : List Item → Except DecErr (List Nat × Nat) × Nat
  | [] => (Except.error DecErr.parse, 0)
  | Item.err e :: _ => (Except.error (DecErr.io e), 1)
  | Item.ok b :: rest =>
    if b == 109 || b == 77 then (Except.ok ([], b), 1)
    else
      match scanSGR rest with
      | (Except.ok (ps, f), k) => (Except.ok (b :: ps, f), k + 1)
      | (Except.error e, k) => (Except.error e, k + 1)

/-- Split a byte list on semicolons (byte 59). -/
def splitSemi : List Nat → List (List Nat)
  | [] => [[]]
  | b :: rest =>
    if b == 59 then [] :: splitSemi rest
    else
      match splitSemi rest with
      | [] => [[b]]
      | g :: gs => (b :: g) :: gs

/-- Parse a non-empty all-digit byte list as a decimal number. -/
def parseNum (ds : List Nat) : Option Nat :=
  if ds.isEmpty then none
  else if ds.all isDigit then
    some (ds.foldl (fun a d => a * 10 + (d - 48)) 0)
  else none

/-- Modelled from the spec: the CSI tilde encoding of special and function
keys (`ESC [ n ~`), with the function-key gaps exercised by the repository's
tests (11–15, 17–21, 23, 24 for F1–F12). -/
def tildeKey (v : Nat) : Except DecErr Event :=
  if v = 1 ∨ v = 7 then Except.ok (Event.Key Key.Home)
  else if v = 2 then Except.ok (Event.Key Key.Insert)
  else if v = 3 then Except.ok (Event.Key Key.Delete)
  else if v = 4 ∨ v = 8 then Except.ok (Event.Key Key.End)
  else if v = 5 then Except.ok (Event.Key Key.PageUp)
  else if v = 6 then Except.ok (Event.Key Key.PageDown)
  else if 11 ≤ v ∧ v ≤ 15 then Except.ok (Event.Key (Key.F (v - 10)))
  else if 17 ≤ v ∧ v ≤ 21 then Except.ok (Event.Key (Key.F (v - 11)))
  else if v = 23 ∨ v = 24 then Except.ok (Event.Key (Key.F (v - 12)))
  else Except.error DecErr.parse

/-- Modelled from the spec: legacy X10 mouse encoding — three raw bytes
after `ESC [ M`, button-state and coordinates offset by the fixed bias 32,
button determined by the code's bit layout. -/
def x10Event (b1 b2 b3 : Nat) : Event :=
  let cb := (b1 + 256 - 32) % 256
  let cx := b2 - 32
  let cy := b3 - 32
  Event.Mouse
    (match cb % 4 with
     | 0 =>
       if cb &&& 64 ≠ 0 then MouseEvent.Press MouseButton.WheelUp cx cy
       else MouseEvent.Press MouseButton.Left cx cy
     | 1 =>
       if cb &&& 64 ≠ 0 then MouseEvent.Press MouseButton.WheelDown cx cy
       else MouseEvent.Press MouseButton.Middle cx cy
     | 2 => MouseEvent.Press MouseButton.Right cx cy
     | _ => MouseEvent.Release cx cy)

/-- Modelled from the spec: SGR extended mouse encoding —
`ESC [ < Pb ; Px ; Py M` is a press (`Hold` when the motion bit is set) and
the `m` final byte is a release. -/
def sgrEvent (cb cx cy fin : Nat) : Except DecErr Event :=
  if fin = 109 then Except.ok (Event.Mouse (MouseEvent.Release cx cy))
  else if cb &&& 32 ≠ 0 then Except.ok (Event.Mouse (MouseEvent.Hold cx cy))
  else if cb = 0 then Except.ok (Event.Mouse (MouseEvent.Press MouseButton.Left cx cy))
  else if cb = 1 then Except.ok (Event.Mouse (MouseEvent.Press MouseButton.Middle cx cy))
  else if cb = 2 then Except.ok (Event.Mouse (MouseEvent.Press MouseButton.Right cx cy))
  else if cb = 64 then Except.ok (Event.Mouse (MouseEvent.Press MouseButton.WheelUp cx cy))
  else if cb = 65 then Except.ok (Event.Mouse (MouseEvent.Press MouseButton.WheelDown cx cy))
  else Except.error DecErr.parse

/-- Modelled from the spec: the decimal-parameter mouse variant with a
semicolon-delimited `Cb ; Cx ; Cy M` body, button code biased by 32. -/
def rxvtEvent (cb cx cy : Nat) : Except DecErr Event :=
  if cb = 32 then Except.ok (Event.Mouse (MouseEvent.Press MouseButton.Left cx cy))
  else if cb = 33 then Except.ok (Event.Mouse (MouseEvent.Press MouseButton.Middle cx cy))
  else if cb = 34 then Except.ok (Event.Mouse (MouseEvent.Press MouseButton.Right cx cy))
  else if cb = 35 then Except.ok (Event.Mouse (MouseEvent.Release cx cy))
  else if cb = 64 then Except.ok (Event.Mouse (MouseEvent.Hold cx cy))
  else if cb = 96 then Except.ok (Event.Mouse (MouseEvent.Press MouseButton.WheelUp cx cy))
  else if cb = 97 then Except.ok (Event.Mouse (MouseEvent.Press MouseButton.WheelDown cx cy))
  else Except.error DecErr.parse

/-- Modelled from the spec: the CSI sub-grammar — `ESC [` followed by arrow
and special-key final bytes, the parameter/tilde encodings, and the mouse
sub-grammars. -/
def parse_csi (l : List Item) : Except DecErr Event × Nat :=
  match l with
  | [] => (Except.error DecErr.parse, 0)
  | Item.err e :: _ => (Except.error (DecErr.io e), 1)
  | Item.ok b :: rest =>
    if b = 65 then (Except.ok (Event.Key Key.Up), 1)
    else if b = 66 then (Except.ok (Event.Key Key.Down), 1)
    else if b = 67 then (Except.ok (Event.Key Key.Right), 1)
    else if b = 68 then (Except.ok (Event.Key Key.Left), 1)
    else if b = 72 then (Except.ok (Event.Key Key.Home), 1)
    else if b = 70 then (Except.ok (Event.Key Key.End), 1)
    else if b = 77 then
      match pullRaw 3 rest with
      | (Except.ok [b1, b2, b3], k) => (Except.ok (x10Event b1 b2 b3), k + 1)
      | (Except.ok _, k) => (Except.error DecErr.parse, k + 1)
      | (Except.error e, k) => (Except.error e, k + 1)
    else if b = 60 then
      match scanSGR rest with
      | (Except.error e, k) => (Except.error e, k + 1)
      | (Except.ok (ps, f), k) =>
        match (splitSemi ps).map parseNum with
        | some cb :: some cx :: some cy :: _ => (sgrEvent cb cx cy f, k + 1)
        | _ => (Except.error DecErr.parse, k + 1)
    else if isDigit b then
      match scanParams rest with
      | (Except.error e, k) => (Except.error e, k + 1)
      | (Except.ok (ps, f), k) =>
        let groups := (splitSemi (b :: ps)).map parseNum
        if f = 126 then
          match groups with
          | some v :: _ => (tildeKey v, k + 1)
          | _ => (Except.error DecErr.parse, k + 1)
        else if f = 77 then
          match groups with
          | some cb :: some cx :: some cy :: _ => (rxvtEvent cb cx cy, k + 1)
          | _ => (Except.error DecErr.parse, k + 1)
        else (Except.error DecErr.parse, k + 1)
    else (Except.error DecErr.parse, 1)

/-- Modelled from the spec: the sequence grammar decoder `event::parse_event`
of the absent `event` module.  Given a leading byte and the continuation
source it recognizes the ESC-prefixed grammar (standalone Escape, CSI, SS3,
Alt-prefixed characters), control bytes, Backspace at `0x7F`, and UTF-8
characters; any unmatched pattern is a decode failure and I/O failures of
the source are propagated. -/
def event.parse_event (b0 : Nat) (l : List Item) : Except DecErr Event × Nat :=
  if b0 = 27 then
    match l with
    | [] => (Except.ok (Event.Key Key.Esc), 0)
    | Item.err e :: _ => (Except.error (DecErr.io e), 1)
    | Item.ok c :: rest =>
      if c = 91 then
        let p := parse_csi rest
        (p.1, p.2 + 1)
      else if c = 79 then
        match rest with
        | [] => (Except.error DecErr.parse, 1)
        | Item.err e :: _ => (Except.error (DecErr.io e), 2)
        | Item.ok d :: _ =>
          if 80 ≤ d ∧ d ≤ 83 then (Except.ok (Event.Key (Key.F (d - 79))), 2)
          else (Except.error DecErr.parse, 2)
      else
        let p := parse_utf8_char c rest
        (p.1.map (fun ch => Event.Key (Key.Alt ch)), p.2 + 1)
  else if b0 = 127 then (Except.ok (Event.Key Key.Backspace), 0)
  else if 1 ≤ b0 ∧ b0 ≤ 26 ∧ ¬(b0 = 9 ∨ b0 = 10 ∨ b0 = 13) then
    (Except.ok (Event.Key (Key.Ctrl (b0 + 96))), 0)
  else
    let p := parse_utf8_char b0 l
    (p.1.map (fun ch => Event.Key (Key.Char ch)), p.2)

/-- The raw-capture wrapper `parse_event` of `src/event/events.rs`: run the
grammar decoder, recording in `buf` the leading byte and (via `inspect`)
every `Ok` byte the decoder pulls; a decode failure is recovered into
`Event::Unsupported(buf)` by `result.or(Ok(..))`, so the wrapper itself
always returns `Ok`. -/
def parse_event (dec : Decoder) (item : Nat) (l : List Item) :
    Except Nat (Event × List Nat) × Nat :=
  let p := dec item l
  let buf := item :: okBytes (l.take p.2)
  match p.1 with
  | Except.ok e => (Except.ok (e, buf), p.2)
  | Except.error _ => (Except.ok (Event.Unsupported buf, buf), p.2)

/-- The state of the streaming disambiguator `EventsAndRaw` of
`src/event/events.rs`: the owned byte source and the optional carried-over
byte. -/
structure EventsAndRaw where
  source : List Item
  leftover : Option Nat
  deriving DecidableEq, Repr

/-- Result of `source.read(&mut buf)` with a two-byte buffer. -/
inductive ReadRes where
  | eof
  | fail (e : Nat)
  | one (b : Nat)
  | two (b1 b2 : Nat)
  deriving DecidableEq, Repr

/-- `source.read(&mut [0u8; 2])` on the modelled source: `Ok(0)` at end of
stream, an error when the next item is an error, otherwise up to two bytes
(stopping early at end of stream or before a pending error item). -/
def read2 : List Item → ReadRes × List Item
  | [] => (ReadRes.eof, [])
  | Item.err e :: rest => (ReadRes.fail e, rest)
  | [Item.ok b] => (ReadRes.one b, [])
  | Item.ok b :: Item.err e :: rest => (ReadRes.one b, Item.err e :: rest)
  | Item.ok b1 :: Item.ok b2 :: rest => (ReadRes.two b1 b2, rest)

/-- `EventsAndRaw::next` of `src/event/events.rs`: use the leftover byte as
leading byte if present (clearing it); otherwise read up to two bytes — end
of stream on zero bytes, standalone `Key(Esc)` on a single `ESC` byte,
decode on a single other byte, and on two bytes splice the second in front
of the live source and keep it as the new leftover if the decoder did not
consume it. -/
def EventsAndRaw.next (dec : Decoder) (s : EventsAndRaw) :
    Option (Except Nat (Event × List Nat)) × EventsAndRaw :=
  match s.leftover with
  | some c =>
    let p := parse_event dec c s.source
    (some p.1, ⟨s.source.drop p.2, none⟩)
  | none =>
    match read2 s.source with
    | (ReadRes.eof, rest) => (none, ⟨rest, none⟩)
    | (ReadRes.fail e, rest) => (some (Except.error e), ⟨rest, none⟩)
    | (ReadRes.one b, rest) =>
      if b = 27 then (some (Except.ok (Event.Key Key.Esc, [27])), ⟨rest, none⟩)
      else
        let p := parse_event dec b rest
        (some p.1, ⟨rest.drop p.2, none⟩)
    | (ReadRes.two b1 b2, rest) =>
      let spliced := Item.ok b2 :: rest
      let p := parse_event dec b1 spliced
      if p.2 = 0 then (some p.1, ⟨rest, some b2⟩)
      else (some p.1, ⟨spliced.drop p.2, none⟩)

/-- Drive `EventsAndRaw.next` to exhaustion (fuel-bounded): the finite
stream of items the iterator yields before returning `None`. -/
def run (dec : Decoder) : Nat → EventsAndRaw → List (Except Nat (Event × List Nat))
  | 0, _ => []
  | fuel + 1, s =>
    match EventsAndRaw.next dec s with
    | (none, _) => []
    | (some r, s') => r :: run dec fuel s'

/-- `TermReadEventsAndRaw::events_and_raw` of `src/input/mod.rs`: a fresh
decoder over a source, with an empty leftover slot. -/
def events_and_raw (source : List Item) : EventsAndRaw :=
  ⟨source, none⟩

/-- Concatenation of the raw captures of a finished event stream (error
items carry no raw bytes). -/
def concatRaws : List (Except Nat (Event × List Nat)) → List Nat
  | [] => []
  | Except.ok (_, raw) :: rest => raw ++ concatRaws rest
  | Except.error _ :: rest => concatRaws rest

/-- Termination measure of the disambiguator state: every yielded event
strictly decreases it. -/
def stateMeasure (s : EventsAndRaw) : Nat :=
  2 * s.source.length + (match s.leftover with | some _ => 1 | none => 0)

/-- `Events::next` of `src/event/events.rs`: delegate to
`EventsAndRaw::next` and drop the raw bytes from the item. -/
def Events.next (dec : Decoder) (s : EventsAndRaw) :
    Option (Except Nat Event) × EventsAndRaw :=
  let p := EventsAndRaw.next dec s
  (p.1.map (fun r => r.map Prod.fst), p.2)

/-- Drive `Events.next` to exhaustion (fuel-bounded). -/
def Events.run (dec : Decoder) : Nat → EventsAndRaw → List (Except Nat Event)
  | 0, _ => []
  | fuel + 1, s =>
    match Events.next dec s with
    | (none, _) => []
    | (some r, s') => r :: Events.run dec fuel s'

/-- `Keys::next` of `src/input/mod.rs`, over an arbitrary underlying event
stream (the finite list of items the `Events` iterator yields): loop,
returning the key of an `Ok(Event::Key(k))` item, skipping other `Ok`
items, forwarding an `Err` item, and stopping at end of stream. -/
def Keys.next : List (Except Nat Event) →
    Option (Except Nat Key) × List (Except Nat Event)
  | [] => (none, [])
  | Except.ok (Event.Key k) :: rest => (some (Except.ok k), rest)
  | Except.ok (Event.Mouse _) :: rest => Keys.next rest
  | Except.ok (Event.Unsupported _) :: rest => Keys.next rest
  | Except.error e :: rest => (some (Except.error e), rest)

/-- Drive `Keys.next` to exhaustion (fuel-bounded). -/
def Keys.run : Nat → List (Except Nat Event) → List (Except Nat Key)
  | 0, _ => []
  | fuel + 1, l =>
    match Keys.next l with
    | (none, _) => []
    | (some r, rest) => r :: Keys.run fuel rest

/-- Specification-side description of the key projection: exactly the keys
of the `Ok(Event::Key(k))` items, in order, with `Err` items forwarded in
place and all other events skipped. -/
def keysSpec (l : List (Except Nat Event)) : List (Except Nat Key) :=
  l.filterMap fun x =>
    match x with
    | Except.ok (Event.Key k) => some (Except.ok k)
    | Except.ok _ => none
    | Except.error e => some (Except.error e)

/-- The full `keys()` pipeline of `src/input/mod.rs`: `Keys` over `Events`
over a fresh `EventsAndRaw` for a given source. -/
def keys (dec : Decoder) (fuel : Nat) (source : List Item) :
    List (Except Nat Key) :=
  let ev := Events.run dec fuel (events_and_raw source)
  Keys.run ev.length ev

theorem okBytes_append (a b : List Item) :
    okBytes (a ++ b) = okBytes a ++ okBytes b := by
  induction a with
  | nil => rfl
  | cons x rest ih => cases x <;> simp [okBytes, ih]

theorem okBytes_take_drop (k : Nat) (l : List Item) :
    okBytes (l.take k) ++ okBytes (l.drop k) = okBytes l := by
  rw [← okBytes_append, List.take_append_drop]

theorem okBytes_map_ok (l : List Nat) : okBytes (l.map Item.ok) = l := by
  induction l with
  | nil => rfl
  | cons x rest ih => simp [okBytes, ih]

theorem parse_event_snd (dec : Decoder) (b : Nat) (l : List Item) :
    (parse_event dec b l).2 = (dec b l).2 := by
  cases h : (dec b l).1 <;> simp [parse_event, h]

theorem parse_event_fst (dec : Decoder) (b : Nat) (l : List Item) :
    ∃ ev, (parse_event dec b l).1 =
      Except.ok (ev, b :: okBytes (l.take (parse_event dec b l).2)) := by
  cases h : (dec b l).1 with
  | ok e => exact ⟨e, by simp [parse_event, h]⟩
  | error e =>
    exact ⟨Event.Unsupported (b :: okBytes (l.take (parse_event dec b l).2)),
      by simp [parse_event, h]⟩

theorem run_succ_some {dec : Decoder} {fuel : Nat} {s : EventsAndRaw}
    {r : Except Nat (Event × List Nat)} {s' : EventsAndRaw}
    (h : EventsAndRaw.next dec s = (some r, s')) :
    run dec (fuel + 1) s = r :: run dec fuel s' := by
  simp [run, h]

theorem run_succ_none {dec : Decoder} {fuel : Nat} {s s' : EventsAndRaw}
    (h : EventsAndRaw.next dec s = (none, s')) :
    run dec (fuel + 1) s = [] := by
  simp [run, h]

theorem next_leftover (dec : Decoder) (c : Nat) (l : List Item) :
    EventsAndRaw.next dec ⟨l, some c⟩ =
      (some (parse_event dec c l).1,
        ⟨l.drop (parse_event dec c l).2, none⟩) := rfl

theorem next_eof (dec : Decoder) :
    EventsAndRaw.next dec ⟨[], none⟩ = (none, ⟨[], none⟩) := rfl

theorem next_fail (dec : Decoder) (e : Nat) (rest : List Item) :
    EventsAndRaw.next dec ⟨Item.err e :: rest, none⟩ =
      (some (Except.error e), ⟨rest, none⟩) := rfl

/-- The stream of raw captures, concatenated, always restores the pending
input: the carried-over byte (if any) followed by every remaining byte of
the source — whatever the grammar decoder does. -/
theorem run_concat (dec : Decoder) :
    ∀ fuel s, stateMeasure s ≤ fuel →
      concatRaws (run dec fuel s) = s.leftover.toList ++ okBytes s.source := by
  intro fuel
  induction fuel with
  | zero =>
    rintro ⟨src, lo⟩ h
    cases lo with
    | some c => exfalso; simp [stateMeasure] at h
    | none =>
      cases src with
      | nil => simp [run, concatRaws, okBytes]
      | cons a rest => exfalso; simp [stateMeasure] at h
  | succ fuel ih =>
    rintro ⟨src, lo⟩ h
    cases lo with
    | some c =>
      obtain ⟨ev, hev⟩ := parse_event_fst dec c src
      rw [run_succ_some (next_leftover dec c src), hev]
      simp only [concatRaws]
      rw [ih ⟨src.drop (parse_event dec c src).2, none⟩
        (by simp only [stateMeasure, List.length_drop] at h ⊢; omega)]
      simp only [Option.toList_some, Option.toList_none, List.nil_append,
        List.cons_append]
      rw [okBytes_take_drop]
    | none =>
      cases src with
      | nil =>
        rw [run_succ_none (next_eof dec)]
        simp [concatRaws, okBytes]
      | cons a rest =>
        cases a with
        | err e =>
          rw [run_succ_some (next_fail dec e rest)]
          simp only [concatRaws]
          rw [ih ⟨rest, none⟩
            (by simp only [stateMeasure, List.length_cons] at h ⊢; omega)]
          simp [okBytes]
        | ok b =>
          cases rest with
          | nil =>
            by_cases hb : b = 27
            · subst hb
              have hnext : EventsAndRaw.next dec ⟨[Item.ok 27], none⟩ =
                  (some (Except.ok (Event.Key Key.Esc, [27])), ⟨[], none⟩) := rfl
              rw [run_succ_some hnext]
              simp only [concatRaws]
              rw [ih ⟨[], none⟩ (by simp [stateMeasure])]
              simp [okBytes]
            · obtain ⟨ev, hev⟩ := parse_event_fst dec b []
              have hnext : EventsAndRaw.next dec ⟨[Item.ok b], none⟩ =
                  (some (parse_event dec b []).1,
                    ⟨List.drop (parse_event dec b []).2 [], none⟩) := by
                simp [EventsAndRaw.next, read2, hb]
              rw [run_succ_some hnext, hev]
              simp only [concatRaws]
              rw [ih ⟨List.drop (parse_event dec b []).2 [], none⟩
                (by simp only [stateMeasure, List.drop_nil, List.length_nil]; omega)]
              simp [okBytes, List.take_nil, List.drop_nil]
          | cons a2 rest2 =>
            cases a2 with
            | err e =>
              by_cases hb : b = 27
              · subst hb
                have hnext :
                    EventsAndRaw.next dec ⟨Item.ok 27 :: Item.err e :: rest2, none⟩ =
                      (some (Except.ok (Event.Key Key.Esc, [27])),
                        ⟨Item.err e :: rest2, none⟩) := rfl
                rw [run_succ_some hnext]
                simp only [concatRaws]
                rw [ih ⟨Item.err e :: rest2, none⟩
                  (by simp only [stateMeasure, List.length_cons] at h ⊢; omega)]
                simp [okBytes]
              · obtain ⟨ev, hev⟩ := parse_event_fst dec b (Item.err e :: rest2)
                have hnext :
                    EventsAndRaw.next dec ⟨Item.ok b :: Item.err e :: rest2, none⟩ =
                      (some (parse_event dec b (Item.err e :: rest2)).1,
                        ⟨(Item.err e :: rest2).drop
                          (parse_event dec b (Item.err e :: rest2)).2, none⟩) := by
                  simp [EventsAndRaw.next, read2, hb]
                rw [run_succ_some hnext, hev]
                simp only [concatRaws]
                rw [ih ⟨(Item.err e :: rest2).drop
                    (parse_event dec b (Item.err e :: rest2)).2, none⟩
                  (by simp only [stateMeasure, List.length_drop,
                      List.length_cons] at h ⊢; omega)]
                simp only [Option.toList_none, List.nil_append, List.cons_append]
                rw [okBytes_take_drop]
                simp [okBytes]
            | ok b2 =>
              obtain ⟨ev, hev⟩ := parse_event_fst dec b (Item.ok b2 :: rest2)
              by_cases hk : (parse_event dec b (Item.ok b2 :: rest2)).2 = 0
              · have hnext :
                    EventsAndRaw.next dec ⟨Item.ok b :: Item.ok b2 :: rest2, none⟩ =
                      (some (parse_event dec b (Item.ok b2 :: rest2)).1,
                        ⟨rest2, some b2⟩) := by
                  simp [EventsAndRaw.next, read2, hk]
                rw [run_succ_some hnext, hev, hk]
                simp only [concatRaws]
                rw [ih ⟨rest2, some b2⟩
                  (by simp only [stateMeasure, List.length_cons] at h ⊢; omega)]
                simp [okBytes, List.take_zero]
              · have hnext :
                    EventsAndRaw.next dec ⟨Item.ok b :: Item.ok b2 :: rest2, none⟩ =
                      (some (parse_event dec b (Item.ok b2 :: rest2)).1,
                        ⟨(Item.ok b2 :: rest2).drop
                          (parse_event dec b (Item.ok b2 :: rest2)).2, none⟩) := by
                  simp [EventsAndRaw.next, read2, hk]
                rw [run_succ_some hnext, hev]
                simp only [concatRaws]
                rw [ih ⟨(Item.ok b2 :: rest2).drop
                    (parse_event dec b (Item.ok b2 :: rest2)).2, none⟩
                  (by simp only [stateMeasure, List.length_drop,
                      List.length_cons] at h ⊢; omega)]
                simp only [Option.toList_none, List.nil_append, List.cons_append]
                rw [okBytes_take_drop]
                simp [okBytes]

/-- C1: for every finite input byte sequence, concatenating the raw-byte
captures of all events produced by the raw-pairing projection
(`EventsAndRaw`, run to end of stream from a fresh state) reproduces the
original input byte-for-byte — for an arbitrary grammar decoder, i.e.
regardless of which bytes the decoder pulls. -/
theorem C1_byte_exactness (dec : Decoder) (input : List Nat) :
    concatRaws (run dec (2 * input.length + 2)
      (events_and_raw (input.map Item.ok))) = input := by
  rw [run_concat dec _ _
    (by simp [stateMeasure, events_and_raw])]
  simp [events_and_raw, okBytes_map_ok]

/-- C2 counterexample: with no leftover byte and source
`[0x1B, '[', Err(7)]`, the two-byte read succeeds, the grammar decoder then
hits the I/O failure while pulling continuation bytes — yet the pull
returns `Some(Ok(Unsupported [0x1B, '[']))`, not `Some(Err(_))`: the
`result.or(Ok(Unsupported(..)))` in `parse_event` swallows the error. -/
theorem C2_err_propagation_counterexample :
    (EventsAndRaw.next event.parse_event
        ⟨[Item.ok 27, Item.ok 91, Item.err 7], none⟩).1 =
      some (Except.ok (Event.Unsupported [27, 91], [27, 91])) ∧
    ∀ e : Nat,
      (EventsAndRaw.next event.parse_event
          ⟨[Item.ok 27, Item.ok 91, Item.err 7], none⟩).1 ≠
        some (Except.error e) := by
  refine ⟨rfl, fun e h => ?_⟩
  rw [show (EventsAndRaw.next event.parse_event
      ⟨[Item.ok 27, Item.ok 91, Item.err 7], none⟩).1 =
      some (Except.ok (Event.Unsupported [27, 91], [27, 91])) from rfl] at h
  exact Except.noConfusion (Option.some.inj h)

/-- C2 amended: an I/O failure of the underlying source is surfaced as
`Some(Err(_))` exactly when it is hit by the initial read of a pull with no
leftover byte; a failure hit while the grammar decoder pulls continuation
bytes (or during a leftover-byte decode) is folded by the `parse_event`
wrapper into an `Ok` event, which never returns `Err`. -/
theorem C2_err_propagation_amended (dec : Decoder) :
    (∀ (e : Nat) (rest : List Item),
      (EventsAndRaw.next dec ⟨Item.err e :: rest, none⟩).1 =
        some (Except.error e)) ∧
    (∀ (b : Nat) (l : List Item), ∃ ev raw,
      (parse_event dec b l).1 = Except.ok (ev, raw)) := by
  refine ⟨fun e rest => rfl, fun b l => ?_⟩
  obtain ⟨ev, hev⟩ := parse_event_fst dec b l
  exact ⟨ev, _, hev⟩

/-- C3: for every grammar decoder, leading byte and continuation source,
when the decode fails the pull does not return an error: `parse_event`
returns `Ok` with `Event::Unsupported` carrying exactly the bytes consumed
so far — the leading byte plus every continuation byte pulled — and the
paired raw capture is that same byte list. -/
theorem C3_unsupported_on_failure (dec : Decoder) (b : Nat) (l : List Item)
    (err : DecErr) (h : (dec b l).1 = Except.error err) :
    parse_event dec b l =
      (Except.ok
        (Event.Unsupported (b :: okBytes (l.take (dec b l).2)),
          b :: okBytes (l.take (dec b l).2)),
        (dec b l).2) := by
  simp [parse_event, h]

/-- Witness for C3: the grammar decoder fails on `ESC [ NUL` and the pull
yields `Ok(Unsupported [0x1B, '[', 0x00])` with the identical raw capture. -/
theorem C3_unsupported_on_failure_witness :
    (event.parse_event 27 [Item.ok 91, Item.ok 0]).1 =
        Except.error DecErr.parse ∧
    parse_event event.parse_event 27 [Item.ok 91, Item.ok 0] =
      (Except.ok
        (Event.Unsupported
          (27 :: okBytes (List.take
            (event.parse_event 27 [Item.ok 91, Item.ok 0]).2
            [Item.ok 91, Item.ok 0])),
          27 :: okBytes (List.take
            (event.parse_event 27 [Item.ok 91, Item.ok 0]).2
            [Item.ok 91, Item.ok 0])),
        (event.parse_event 27 [Item.ok 91, Item.ok 0]).2) :=
  ⟨rfl, C3_unsupported_on_failure event.parse_event 27
    [Item.ok 91, Item.ok 0] DecErr.parse rfl⟩

/-- C4: when no leftover byte is held and the two-byte read returns exactly
one byte which is ESC, the pull yields `Key(Esc)` paired with raw `[0x1B]`,
leaving the rest of the source untouched (no further byte is pulled); in
particular the input stream consisting of the single byte `0x1B` yields one
`Key(Esc)` event and then end of stream. -/
theorem C4_standalone_escape (dec : Decoder) :
    (∀ (l rest : List Item), read2 l = (ReadRes.one 27, rest) →
      EventsAndRaw.next dec ⟨l, none⟩ =
        (some (Except.ok (Event.Key Key.Esc, [27])), ⟨rest, none⟩)) ∧
    run dec 2 ⟨[Item.ok 27], none⟩ =
      [Except.ok (Event.Key Key.Esc, [27])] := by
  constructor
  · intro l rest h
    simp [EventsAndRaw.next, h]
  · rfl

/-- Witness for C4: the single-byte stream `[0x1B]` satisfies the
hypothesis and produces the standalone escape event. -/
theorem C4_standalone_escape_witness :
    read2 [Item.ok 27] = (ReadRes.one 27, []) ∧
    EventsAndRaw.next event.parse_event ⟨[Item.ok 27], none⟩ =
      (some (Except.ok (Event.Key Key.Esc, [27])), ⟨[], none⟩) :=
  ⟨rfl, (C4_standalone_escape event.parse_event).1 [Item.ok 27] [] rfl⟩

/-- C5: the carried-over byte (at most one, by the `Option` typing of the
`leftover` field) is handled as specified: a pull with a leftover byte uses
it as the leading byte of the decode against the untouched live source and
clears the slot; a pull whose two-byte read succeeds splices the second
byte in front of the live source, and stores it as the new leftover exactly
when the grammar decoder did not consume it. -/
theorem C5_leftover_discipline (dec : Decoder) :
    (∀ (c : Nat) (l : List Item),
      EventsAndRaw.next dec ⟨l, some c⟩ =
        (some (parse_event dec c l).1,
          ⟨l.drop (parse_event dec c l).2, none⟩)) ∧
    (∀ (b1 b2 : Nat) (rest : List Item),
      EventsAndRaw.next dec ⟨Item.ok b1 :: Item.ok b2 :: rest, none⟩ =
        (some (parse_event dec b1 (Item.ok b2 :: rest)).1,
          if (parse_event dec b1 (Item.ok b2 :: rest)).2 = 0 then
            ⟨rest, some b2⟩
          else
            ⟨(Item.ok b2 :: rest).drop
              (parse_event dec b1 (Item.ok b2 :: rest)).2, none⟩)) := by
  refine ⟨fun c l => rfl, fun b1 b2 rest => ?_⟩
  by_cases hk : (parse_event dec b1 (Item.ok b2 :: rest)).2 = 0 <;>
    simp [EventsAndRaw.next, read2, hk]

theorem keysNext_spec (l : List (Except Nat Event)) :
    (∀ rest, Keys.next l = (none, rest) → keysSpec l = []) ∧
    (∀ r rest, Keys.next l = (some r, rest) →
      keysSpec l = r :: keysSpec rest ∧ rest.length < l.length) := by
  induction l with
  | nil =>
    refine ⟨fun rest _ => rfl, fun r rest h => ?_⟩
    simp [Keys.next] at h
  | cons x rest ih =>
    match x with
    | Except.ok (Event.Key k) =>
      refine ⟨fun rest2 h => ?_, fun r rest2 h => ?_⟩
      · simp [Keys.next] at h
      · simp only [Keys.next, Prod.mk.injEq, Option.some.injEq] at h
        obtain ⟨h1, h2⟩ := h
        subst h1; subst h2
        exact ⟨by simp [keysSpec], by simp⟩
    | Except.ok (Event.Mouse m) =>
      refine ⟨fun rest2 h => ?_, fun r rest2 h => ?_⟩
      · have := ih.1 rest2 (by simpa [Keys.next] using h)
        simpa [keysSpec] using this
      · have := ih.2 r rest2 (by simpa [Keys.next] using h)
        refine ⟨?_, ?_⟩
        · simpa [keysSpec] using this.1
        · exact Nat.lt_trans this.2 (by simp)
    | Except.ok (Event.Unsupported bs) =>
      refine ⟨fun rest2 h => ?_, fun r rest2 h => ?_⟩
      · have := ih.1 rest2 (by simpa [Keys.next] using h)
        simpa [keysSpec] using this
      · have := ih.2 r rest2 (by simpa [Keys.next] using h)
        refine ⟨?_, ?_⟩
        · simpa [keysSpec] using this.1
        · exact Nat.lt_trans this.2 (by simp)
    | Except.error e =>
      refine ⟨fun rest2 h => ?_, fun r rest2 h => ?_⟩
      · simp [Keys.next] at h
      · simp only [Keys.next, Prod.mk.injEq, Option.some.injEq] at h
        obtain ⟨h1, h2⟩ := h
        subst h1; subst h2
        exact ⟨by simp [keysSpec], by simp⟩

theorem keysRun_spec :
    ∀ fuel (l : List (Except Nat Event)), l.length ≤ fuel →
      Keys.run fuel l = keysSpec l := by
  intro fuel
  induction fuel with
  | zero =>
    intro l h
    rw [List.length_eq_zero.mp (Nat.le_zero.mp h)]
    rfl
  | succ fuel ih =>
    intro l h
    cases h2 : Keys.next l with
    | mk o rest =>
      cases o with
      | none =>
        rw [show Keys.run (fuel + 1) l = [] by simp [Keys.run, h2]]
        exact ((keysNext_spec l).1 rest h2).symm
      | some r =>
        obtain ⟨hs, hlen⟩ := (keysNext_spec l).2 r rest h2
        rw [show Keys.run (fuel + 1) l = r :: Keys.run fuel rest by
          simp [Keys.run, h2]]
        rw [ih rest (by omega), hs]

/-- C6: for every underlying event stream, the `Keys` loop yields exactly
the keys of the `Ok(Event::Key(k))` items of that stream, in order,
skipping mouse and unsupported events, forwarding each `Err` item as the
very next yielded item, and ending exactly when the underlying stream
ends. -/
theorem C6_keys_projection (stream : List (Except Nat Event)) :
    Keys.run stream.length stream = keysSpec stream :=
  keysRun_spec stream.length stream le_rfl

/-- C7: the `Events` iterator is exactly the raw-pairing projection with
the raw bytes dropped: a pull yields `Some(Ok(event))` iff the
`EventsAndRaw` pull yields `Some(Ok((event, raw)))` for some raw, errors
and end-of-stream coincide, and both leave the identical delegated state
(no state beyond delegation). -/
theorem C7_events_refines_events_and_raw (dec : Decoder) (s : EventsAndRaw) :
    ((Events.next dec s).1 = none ↔ (EventsAndRaw.next dec s).1 = none) ∧
    (∀ ev : Event, (Events.next dec s).1 = some (Except.ok ev) ↔
      ∃ raw, (EventsAndRaw.next dec s).1 = some (Except.ok (ev, raw))) ∧
    (∀ e : Nat, (Events.next dec s).1 = some (Except.error e) ↔
      (EventsAndRaw.next dec s).1 = some (Except.error e)) ∧
    (Events.next dec s).2 = (EventsAndRaw.next dec s).2 := by
  rcases h : EventsAndRaw.next dec s with ⟨o, s2⟩
  have hE : Events.next dec s = (o.map (fun r => r.map Prod.fst), s2) := by
    simp [Events.next, h]
  rcases o with _ | r
  · simp [hE, h]
  · rcases r with e0 | p
    · simp [hE, h, Except.map]
    · obtain ⟨ev0, raw0⟩ := p
      simp [hE, h, Except.map]

/-- C8: decoding is deterministic with no hidden global state — running a
freshly constructed decoder (`events_and_raw`, empty leftover slot) over
the same fixed byte buffer twice produces identical event sequences; in
the pure embedding the two runs are the same function application. -/
theorem C8_idempotent_redecoding (buffer : List Nat) (fuel : Nat) :
    run event.parse_event fuel (events_and_raw (buffer.map Item.ok)) =
      run event.parse_event fuel (events_and_raw (buffer.map Item.ok)) := rfl

/-- C9: the input byte sequence `0x1B 'a' 'y' 'o' 0x7F 0x1B '[' 'D'`,
decoded through a fresh `Keys` pipeline, yields exactly
`Alt('a'), Char('y'), Char('o'), Backspace, Left` in that order and then
end of stream. -/
theorem C9_test_keys :
    keys event.parse_event 20
        ([27, 97, 121, 111, 127, 27, 91, 68].map Item.ok) =
      [Except.ok (Key.Alt 97), Except.ok (Key.Char 121),
        Except.ok (Key.Char 111), Except.ok Key.Backspace,
        Except.ok Key.Left] := by rfl

theorem tildeKey_ne_unsupported (v : Nat) (bs : List Nat) :
    tildeKey v ≠ Except.ok (Event.Unsupported bs) := by
  unfold tildeKey
  split_ifs <;> simp

theorem x10Event_ne_unsupported (b1 b2 b3 : Nat) (bs : List Nat) :
    x10Event b1 b2 b3 ≠ Event.Unsupported bs := by
  simp [x10Event]

theorem sgrEvent_ne_unsupported (cb cx cy f : Nat) (bs : List Nat) :
    sgrEvent cb cx cy f ≠ Except.ok (Event.Unsupported bs) := by
  unfold sgrEvent
  split_ifs <;> simp

theorem rxvtEvent_ne_unsupported (cb cx cy : Nat) (bs : List Nat) :
    rxvtEvent cb cx cy ≠ Except.ok (Event.Unsupported bs) := by
  unfold rxvtEvent
  split_ifs <;> simp

theorem parse_csi_ne_unsupported (l : List Item) (bs : List Nat) :
    (parse_csi l).1 ≠ Except.ok (Event.Unsupported bs) := by
  cases l with
  | nil => simp [parse_csi]
  | cons a rest =>
    cases a with
    | err e => simp [parse_csi]
    | ok b =>
      by_cases h65 : b = 65
      · simp [parse_csi, h65]
      by_cases h66 : b = 66
      · simp [parse_csi, h65, h66]
      by_cases h67 : b = 67
      · simp [parse_csi, h65, h66, h67]
      by_cases h68 : b = 68
      · simp [parse_csi, h65, h66, h67, h68]
      by_cases h72 : b = 72
      · simp [parse_csi, h65, h66, h67, h68, h72]
      by_cases h70 : b = 70
      · simp [parse_csi, h65, h66, h67, h68, h72, h70]
      by_cases h77 : b = 77
      · subst h77
        simp only [parse_csi]
        simp
        split <;> simp [x10Event]
      by_cases h60 : b = 60
      · subst h60
        simp only [parse_csi]
        simp
        split <;>
          first
            | simp
            | (split <;> simp [sgrEvent_ne_unsupported])
      by_cases hdig : isDigit b = true
      · simp only [parse_csi]
        simp [h65, h66, h67, h68, h72, h70, h77, h60, hdig]
        split <;>
          first
            | simp
            | (split_ifs <;> (try split) <;>
                simp [tildeKey_ne_unsupported, rxvtEvent_ne_unsupported])
      simp [parse_csi, h65, h66, h67, h68, h72, h70, h77, h60, hdig]

theorem event_parse_event_ne_unsupported (b : Nat) (l : List Item)
    (bs : List Nat) :
    (event.parse_event b l).1 ≠ Except.ok (Event.Unsupported bs) := by
  by_cases h27 : b = 27
  · subst h27
    simp only [event.parse_event, if_pos rfl]
    cases l with
    | nil => simp
    | cons a rest =>
      cases a with
      | err e => simp
      | ok c =>
        by_cases h91 : c = 91
        · simp [h91, parse_csi_ne_unsupported]
        · by_cases h79 : c = 79
          · subst h79
            cases rest with
            | nil => simp [h91]
            | cons a2 rest2 =>
              cases a2 with
              | err e2 => simp [h91]
              | ok d =>
                by_cases hd : 80 ≤ d ∧ d ≤ 83 <;> simp [h91, hd]
          · rcases hp : (parse_utf8_char c rest).1 with e | ch <;>
              simp [h91, h79, hp, Except.map]
  · simp only [event.parse_event, if_neg h27]
    by_cases h127 : b = 127
    · simp [h127]
    · simp only [if_neg h127]
      by_cases hctrl : 1 ≤ b ∧ b ≤ 26 ∧ ¬(b = 9 ∨ b = 10 ∨ b = 13)
      · simp [hctrl]
      · simp only [if_neg hctrl]
        rcases hp : (parse_utf8_char b l).1 with e | ch <;>
          simp [hp, Except.map]

theorem parse_event_raw_shape (dec : Decoder)
    (hdec : ∀ b l bs, (dec b l).1 ≠ Except.ok (Event.Unsupported bs))
    (b : Nat) (l : List Item) (ev : Event) (raw : List Nat)
    (h : (parse_event dec b l).1 = Except.ok (ev, raw)) :
    raw ≠ [] ∧ ∀ bs, ev = Event.Unsupported bs → bs ≠ [] := by
  rcases hd : (dec b l).1 with e | ev0
  · simp only [parse_event, hd, Except.ok.injEq, Prod.mk.injEq] at h
    obtain ⟨h1, h2⟩ := h
    refine ⟨by rw [← h2]; simp, fun bs hbs => ?_⟩
    rw [← h1] at hbs
    rw [← Event.Unsupported.inj hbs]
    simp
  · simp only [parse_event, hd, Except.ok.injEq, Prod.mk.injEq] at h
    obtain ⟨h1, h2⟩ := h
    refine ⟨by rw [← h2]; simp, fun bs hbs => ?_⟩
    rw [← h1] at hbs
    exact absurd (by rw [hd, hbs]) (hdec b l bs)

theorem next_raw_shape (dec : Decoder)
    (hdec : ∀ b l bs, (dec b l).1 ≠ Except.ok (Event.Unsupported bs))
    (s s' : EventsAndRaw) (r : Except Nat (Event × List Nat))
    (ev : Event) (raw : List Nat)
    (h : EventsAndRaw.next dec s = (some r, s'))
    (hr : r = Except.ok (ev, raw)) :
    raw ≠ [] ∧ ∀ bs, ev = Event.Unsupported bs → bs ≠ [] := by
  subst hr
  obtain ⟨src, lo⟩ := s
  cases lo with
  | some c =>
    rw [next_leftover] at h
    injection h with h1 h2
    injection h1 with h3
    exact parse_event_raw_shape dec hdec c src ev raw h3
  | none =>
    cases src with
    | nil =>
      rw [next_eof] at h
      injection h with h1 h2
      exact Option.noConfusion h1
    | cons a rest =>
      cases a with
      | err e =>
        rw [next_fail] at h
        injection h with h1 h2
        injection h1 with h3
        exact Except.noConfusion h3
      | ok b =>
        cases rest with
        | nil =>
          by_cases hb : b = 27
          · subst hb
            have hn : EventsAndRaw.next dec ⟨[Item.ok 27], none⟩ =
                (some (Except.ok (Event.Key Key.Esc, [27])), ⟨[], none⟩) := rfl
            rw [hn] at h
            injection h with h1 h2
            injection h1 with h3
            injection h3 with h4
            injection h4 with h5 h6
            refine ⟨by rw [← h6]; simp, fun bs hbs => ?_⟩
            rw [← h5] at hbs
            exact Event.noConfusion hbs
          · have hn : EventsAndRaw.next dec ⟨[Item.ok b], none⟩ =
                (some (parse_event dec b []).1,
                  ⟨List.drop (parse_event dec b []).2 [], none⟩) := by
              simp [EventsAndRaw.next, read2, hb]
            rw [hn] at h
            injection h with h1 h2
            injection h1 with h3
            exact parse_event_raw_shape dec hdec b [] ev raw h3
        | cons a2 rest2 =>
          cases a2 with
          | err e =>
            by_cases hb : b = 27
            · subst hb
              have hn :
                  EventsAndRaw.next dec ⟨Item.ok 27 :: Item.err e :: rest2, none⟩ =
                    (some (Except.ok (Event.Key Key.Esc, [27])),
                      ⟨Item.err e :: rest2, none⟩) := rfl
              rw [hn] at h
              injection h with h1 h2
              injection h1 with h3
              injection h3 with h4
              injection h4 with h5 h6
              refine ⟨by rw [← h6]; simp, fun bs hbs => ?_⟩
              rw [← h5] at hbs
              exact Event.noConfusion hbs
            · have hn :
                  EventsAndRaw.next dec ⟨Item.ok b :: Item.err e :: rest2, none⟩ =
                    (some (parse_event dec b (Item.err e :: rest2)).1,
                      ⟨(Item.err e :: rest2).drop
                        (parse_event dec b (Item.err e :: rest2)).2, none⟩) := by
                simp [EventsAndRaw.next, read2, hb]
              rw [hn] at h
              injection h with h1 h2
              injection h1 with h3
              exact parse_event_raw_shape dec hdec b (Item.err e :: rest2) ev raw h3
          | ok b2 =>
            simp only [EventsAndRaw.next, read2] at h
            split at h <;>
              (injection h with h1 h2
               injection h1 with h3
               exact parse_event_raw_shape dec hdec b (Item.ok b2 :: rest2) ev raw h3)

/-- C10: every raw capture paired with an event by `EventsAndRaw` is
non-empty — it always contains at least the leading byte — and every
`Event::Unsupported` it produces carries at least one byte. -/
theorem C10_raw_capture_nonempty (s s' : EventsAndRaw)
    (r : Except Nat (Event × List Nat)) (ev : Event) (raw : List Nat)
    (h : EventsAndRaw.next event.parse_event s = (some r, s'))
    (hr : r = Except.ok (ev, raw)) :
    raw ≠ [] ∧ ∀ bs, ev = Event.Unsupported bs → bs ≠ [] :=
  next_raw_shape event.parse_event event_parse_event_ne_unsupported
    s s' r ev raw h hr

/-- Witness for C10: the pull decoding `ESC [ NUL` yields an `Unsupported`
event whose raw capture and payload `[0x1B, '[', 0x00]` are non-empty. -/
theorem C10_raw_capture_nonempty_witness :
    EventsAndRaw.next event.parse_event
        ⟨[Item.ok 27, Item.ok 91, Item.ok 0], none⟩ =
      (some (Except.ok (Event.Unsupported [27, 91, 0], [27, 91, 0])),
        ⟨[], none⟩) ∧
    ([27, 91, 0] ≠ ([] : List Nat) ∧
      ∀ bs, Event.Unsupported [27, 91, 0] = Event.Unsupported bs → bs ≠ []) :=
  ⟨rfl, C10_raw_capture_nonempty ⟨[Item.ok 27, Item.ok 91, Item.ok 0], none⟩
    ⟨[], none⟩ _ _ _ rfl rfl⟩
